import Mathlib

/-!
Shallow embedding of `pgbench_python.py` (concurrent benchmark runner),
with the data model and operations needed to settle the specification
claims about it: the per-connection worker sample loop, the latency
histogram, the result aggregation loop, the `_do_run` scheduling helper,
the runner's lifecycle (COPY validation/transformation, connection
acquisition, setup/warmup/measured passes, teardown), and the
`__main__` job validation.

Machine conventions of the embedding:
* times are naturals in the units the code itself uses: the CLI
  `--timeout`/`--duration` values are seconds, `runner` rescales the
  timeout to milliseconds (`timeout = args.timeout * 1000`), and each
  recorded sample is `round(elapsed_seconds * 1000 * 100)`, i.e. an
  integer number of hundredths of a millisecond;
* `float('inf')` (the initial `min_latency`) becomes `(⊤ : WithTop ℕ)`;
* fallible code paths return `Except`; a numpy out-of-range index
  (`latency_stats[req_time] += 1` past the end) raises `IndexError`,
  modelled as `Except.error`;
* the monotonic clock is external: a worker run is driven by the finite
  trace of `(rounded latency, row count)` samples its loop performed
  before the deadline check stopped it.  For the deterministic
  stub-adapter scenario of the spec, `stubTrace` computes that trace for
  a clock that advances by exactly the executor latency per iteration.
-/

deriving instance DecidableEq for Except

namespace PgBench

/-- One worker's result tuple `(queries, rows, latency_stats, min_latency,
max_latency)` as returned by `worker` / `sync_worker` (lines 107-148 of
the source).  `min_latency` starts at `float('inf')`, hence `WithTop ℕ`. -/
structure WorkerResult where
  queries : Nat
  rows : Nat
  latency_stats : List Nat
  min_latency : WithTop Nat
  max_latency : Nat
deriving DecidableEq

/-- The worker-local state at loop entry (lines 108-112 / 130-134):
zero counters, `np.zeros((timeout * 100,))` for the histogram where
`timeout` is the millisecond-scaled value the runner passes in,
`min = inf`, `max = 0`. -/
def workerInit (timeoutMs : Nat) : WorkerResult :=
  { queries := 0
    rows := 0
    latency_stats := List.replicate (timeoutMs * 100) 0
    min_latency := ⊤
    max_latency := 0 }

/-- One iteration of the sample loop body (lines 114-125 / 136-147):
accumulate the executor's row count, update running max/min with the
rounded request time, then `latency_stats[req_time] += 1` — which raises
`IndexError` (modelled as `Except.error`) when `req_time` is outside the
allocated bucket range — and bump the query counter. -/
def recordSample (st : WorkerResult) (s : Nat × Nat) : Except Unit WorkerResult :=
  let reqTime := s.1
  let rows := st.rows + s.2
  let maxL := if reqTime > st.max_latency then reqTime else st.max_latency
  let minL := if (reqTime : WithTop Nat) < st.min_latency then (reqTime : WithTop Nat)
    else st.min_latency
  if h : reqTime < st.latency_stats.length then
    .ok { queries := st.queries + 1
          rows := rows
          latency_stats := st.latency_stats.set reqTime (st.latency_stats[reqTime] + 1)
          min_latency := minL
          max_latency := maxL }
  else
    .error ()

/-- The worker's sample loop over the trace of iterations the clock
admitted; the first out-of-range bucket index aborts the run with the
propagating `IndexError`. -/
def workerLoop (st : WorkerResult) : List (Nat × Nat) → Except Unit WorkerResult
  | [] => .ok st
  | s :: rest =>
    match recordSample st s with
    | .error e => .error e
    | .ok st' => workerLoop st' rest

/-- A full `worker` / `sync_worker` run (the two bodies are identical;
only the scheduling differs): start from the freshly allocated state for
the given millisecond-scaled timeout and fold the loop body over the
iteration trace. -/
def runWorker (timeoutMs : Nat) (trace : List (Nat × Nat)) : Except Unit WorkerResult :=
  workerLoop (workerInit timeoutMs) trace

/-- Line 151 of the source: `timeout = args.timeout * 1000` — the value
handed to every worker is the CLI timeout rescaled from seconds to
milliseconds, so the allocated histogram has `timeoutSec * 1000 * 100`
buckets. -/
def workerTimeoutMs (timeoutSec : Nat) : Nat := timeoutSec * 1000

/-- Iteration trace of a worker driven by a deterministic stub adapter:
every executor call takes exactly `lat` hundredths of a millisecond and
returns `r` rows, and the clock advances by precisely that much per
iteration; the loop condition `time.monotonic() - start < duration`
stops the loop once the accumulated time reaches `duration`
(hundredths of a millisecond).  `fuel` bounds the recursion; any
`fuel ≥ duration` is enough when `lat ≥ 1`. -/
def stubTraceAux (lat r duration : Nat) : Nat → Nat → List (Nat × Nat)
  | 0, _ => []
  | fuel + 1, elapsed =>
    if elapsed < duration then (lat, r) :: stubTraceAux lat r duration fuel (elapsed + lat)
    else []

/-- See `stubTraceAux`; the trace starts with zero elapsed time. -/
def stubTrace (fuel lat r duration : Nat) : List (Nat × Nat) :=
  stubTraceAux lat r duration fuel 0

/-- Python's `round` on a rational value: round half to even
(banker's rounding), as used for `round((now - req_start) * 1000 * 100)`. -/
def pyRound (q : ℚ) : ℤ :=
  let f : ℤ := ⌊q⌋
  let frac : ℚ := q - f
  if frac < 1/2 then f
  else if frac > 1/2 then f + 1
  else if f % 2 = 0 then f else f + 1

/-! ## Aggregator (runner lines 233-251) -/

/-- The aggregation accumulator of the result loop: running totals plus
the histogram, which starts out as `None` and is replaced by the first
worker's histogram before being `np.add`-ed with the rest. -/
structure Agg where
  queries : Nat
  rows : Nat
  latency_stats : Option (List Nat)
  min_latency : WithTop Nat
  max_latency : Nat
deriving DecidableEq

/-- Accumulator state before the `for result in results` loop
(lines 233-237). -/
def initAgg : Agg :=
  { queries := 0, rows := 0, latency_stats := none, min_latency := ⊤, max_latency := 0 }

/-- `np.add` on two histograms: element-wise sum (all worker histograms
have the same length `timeout * 100` by construction). -/
def histAdd (h1 h2 : List Nat) : List Nat := List.zipWith (· + ·) h1 h2

/-- One iteration of the aggregation loop body (lines 239-251). -/
def aggStep (a : Agg) (r : WorkerResult) : Agg :=
  { queries := a.queries + r.queries
    rows := a.rows + r.rows
    latency_stats :=
      match a.latency_stats with
      | none => some r.latency_stats
      | some h => some (histAdd h r.latency_stats)
    min_latency := if r.min_latency < a.min_latency then r.min_latency else a.min_latency
    max_latency := if r.max_latency > a.max_latency then r.max_latency else a.max_latency }

/-- The full aggregation of a sequence of worker results. -/
def mergeResults (rs : List WorkerResult) : Agg := rs.foldl aggStep initAgg

/-- Read an aggregate back as a worker-result-shaped tuple (used to state
the grouping property of aggregation: a group's merge fed back into an
outer merge).  For a nonempty group the histogram is always present. -/
def aggResult (a : Agg) : WorkerResult :=
  { queries := a.queries
    rows := a.rows
    latency_stats := a.latency_stats.getD []
    min_latency := a.min_latency
    max_latency := a.max_latency }

/-! ## COPY query parsing and argument transformation (runner lines 153-176) -/

/-- `\w` of the source regex, ASCII reading: letters, digits, underscore. -/
def isWordChar (c : Char) : Bool := c.isAlphanum || c == '_'

/-- Longest `\w+` match at the head of the character list, with the
remainder. -/
def takeWord : List Char → List Char × List Char
  | [] => ([], [])
  | c :: cs =>
    if isWordChar c then
      let (w, rest) := takeWord cs
      (c :: w, rest)
    else ([], c :: cs)

/-- Longest `\s*` match: drop leading whitespace. -/
def dropSpaces : List Char → List Char
  | [] => []
  | c :: cs => if c.isWhitespace then dropSpaces cs else c :: cs

/-- The column-list tail of the regex, `(?:,\s*\w+)*\s*\)`: after the
first column word, further columns are a comma (no space allowed before
it), optional whitespace, then a word; the list ends at `\s*\)`.
`re.match` ignores any text after the closing parenthesis.  `fuel`
bounds the recursion (the remaining character count suffices). -/
def parseCols : Nat → List Char → Option (List String)
  | 0, _ => none
  | fuel + 1, cs =>
    match cs with
    | ',' :: rest =>
      match takeWord (dropSpaces rest) with
      | ([], _) => none
      | (w, rest2) => (parseCols fuel rest2).map (fun ws => String.mk w :: ws)
    | _ =>
      match dropSpaces cs with
      | ')' :: _ => some []
      | _ => none

/-- The anchored regex of line 163,
`COPY (\w+)\s*\(\s*((?:\w+)(?:,\s*\w+)*)\s*\)`, returning the table name
and the stripped column names (`[col.strip() for col in
match.group(2).split(',')]`, lines 170-173). -/
def parseCopyQuery (q : String) : Option (String × List String) :=
  match q.data with
  | 'C' :: 'O' :: 'P' :: 'Y' :: ' ' :: rest =>
    match takeWord rest with
    | ([], _) => none
    | (tbl, rest1) =>
      match dropSpaces rest1 with
      | '(' :: rest2 =>
        match takeWord (dropSpaces rest2) with
        | ([], _) => none
        | (col1, rest3) =>
          (parseCols (rest3.length + 1) rest3).map
            (fun cols => (String.mk tbl, String.mk col1 :: cols))
      | _ => none
  | _ => none

/-- Copy metadata appended as the trailing synthetic argument
(lines 172-175): `{table, columns}`. -/
structure CopyMeta where
  table : String
  columns : List String
deriving DecidableEq

/-- One entry of the job's `args` array.  A row template is modelled as a
list of strings.  `spec` is the bulk-copy argument description
`{row: template, count: N}`; `rows` is the expanded payload the runner
substitutes for it; `meta` is the trailing synthetic copy metadata;
`plain` is an ordinary bound argument of a non-copy job. -/
inductive QueryArg where
  | rows (rs : List (List String))
  | meta (m : CopyMeta)
  | spec (row : List String) (count : Nat)
  | plain (s : String)
deriving DecidableEq

/-! ## Runner orchestration (lines 151-281) and `__main__` validation -/

/-- The fatal conditions the runner can raise, by source site:
`copyNotSupported` (line 161, `COPY is not supported`), `copyParseError`
(line 166, `could not parse COPY query`), `badCopyArgs`
(lines 168-170, `query_args[0]` missing or not of the
`{row, count}` shape), `connectError` (a `connector(args)` call at
lines 180-183 raising), `executionError` (an executor raising inside a
worker), `unboundAdminName` (the `UnboundLocalError` from referencing
`admin_conn` when `setup` never ran, lines 255/281), `incompleteCopy`
(line 266, `COPY did not insert the expected number of rows`), and
`emptyResults` (`latency_stats.tolist()` on `None` when there were no
worker results, line 275). -/
inductive RunError where
  | copyNotSupported
  | copyParseError
  | badCopyArgs
  | connectError
  | executionError
  | unboundAdminName
  | incompleteCopy
  | emptyResults
deriving DecidableEq

/-- Externally observable side effects of one runner invocation:
how many worker connections were opened and closed, whether the
administrative connection was opened, how many times the setup and
teardown statements were executed on it, and how many `_do_run` passes
were started. -/
structure RunLog where
  connsOpened : Nat := 0
  connsClosed : Nat := 0
  adminOpened : Bool := false
  setupRuns : Nat := 0
  teardownRuns : Nat := 0
  doRunCalls : Nat := 0
deriving DecidableEq

/-- The `data` dictionary printed at line 283 (the benchmark report). -/
structure Report where
  queries : Nat
  rows : Nat
  duration : Nat
  min_latency : WithTop Nat
  max_latency : Nat
  latency_stats : List Nat
  output_format : String
deriving DecidableEq

/-- Python truthiness of an optional string, as used by `if setup:`,
`if teardown:` and the `__main__` checks: absent (`None`) and the empty
string are both falsy. -/
def truthyStr : Option String → Bool
  | none => false
  | some s => s ≠ ""

/-- Everything one `runner(...)` invocation depends on.  `connectOk i`
tells whether the `i`-th `connector(args)` call succeeds.
`workerFn pass i duration` abstracts one `worker`/`sync_worker` run of
worker `i` during pass `pass` (`0` = warmup, `1` = measured) with the
given duration argument; its `Except.error` models an executor raising
mid-loop.  `copyRowcount` is what the `SELECT count(*)` post-check
fetches.  The millisecond-rescaled `timeoutSec * 1000` is threaded to
every worker (see `workerTimeoutMs`); the worker-level claims are
settled against `runWorker` directly. -/
structure RunnerInput where
  timeoutSec : Nat
  concurrency : Nat
  duration : Nat
  warmupTime : Nat
  isAsync : Bool
  hasCopyExecutor : Bool
  query : String
  queryArgs : List QueryArg
  setup : Option String
  teardown : Option String
  outputFormat : String
  connectOk : Nat → Bool
  workerFn : Nat → Nat → Nat → Except Unit WorkerResult
  copyRowcount : Nat

/-- `query.startswith('COPY ')` (line 156), decided on the character
list. -/
def isCopyQuery (q : String) : Bool :=
  match q.data with
  | 'C' :: 'O' :: 'P' :: 'Y' :: ' ' :: _ => true
  | _ => false

/-- The COPY validation and argument transformation (lines 158-176),
run before any connection is opened: reject when the adapter has no
bulk-copy executor, parse the query with the fixed grammar, then replace
`query_args[0] = {row, count}` by `count` repetitions of `row` and
append the `{table, columns}` metadata as a trailing argument.
Non-copy queries pass through untouched. -/
def prepArgs (hasCopyExec : Bool) (query : String) (args : List QueryArg) :
    Except RunError (List QueryArg) :=
  if isCopyQuery query then
    if hasCopyExec = false then .error .copyNotSupported
    else
      match parseCopyQuery query with
      | none => .error .copyParseError
      | some tc =>
        match args with
        | .spec row count :: rest =>
          .ok (.rows (List.replicate count row) :: (rest ++ [.meta ⟨tc.1, tc.2⟩]))
        | _ => .error .badCopyArgs
  else .ok args

/-- The connection-acquisition loop (lines 178-185): open connections
one by one; a failing `connector` call propagates immediately, and
nothing closes the connections already opened (there is no enclosing
`try`/`finally` at this point).  Returns the outcome together with the
number of connections actually opened. -/
def openConns (ok : Nat → Bool) : Nat → Nat → Except RunError Unit × Nat
  | 0, opened => (.ok (), opened)
  | n + 1, opened =>
    if ok opened then openConns ok n (opened + 1)
    else (.error .connectError, opened)

/-- `len(query_args[0])` at the copy post-check site (line 265); on the
copy path `query_args[0]` is always the expanded rows payload. -/
def rowsPerIter : List QueryArg → Nat
  | QueryArg.rows rs :: _ => rs.length
  | _ => 0

/-- Building the `data` dictionary (lines 269-277):
`latency_stats.tolist()` raises on `None` (no worker results), otherwise
the report carries the aggregate.  The wall-clock span returned by
`_do_run` is modelled as the configured duration. -/
def mkReport (inp : RunnerInput) (agg : Agg) : Except RunError Report :=
  match agg.latency_stats with
  | none => .error .emptyResults
  | some h =>
    .ok { queries := agg.queries
          rows := agg.rows
          duration := inp.duration
          min_latency := agg.min_latency
          max_latency := agg.max_latency
          latency_stats := h
          output_format := inp.outputFormat }

/-- `_do_run(run_duration)` (lines 187-213): launch `concurrency`
workers and join them all.  Faithful to the source, the asynchronous
branch passes `args.duration` to every worker while only the
thread-pool branch passes its `run_duration` parameter. -/
def do_run (isAsync : Bool) (argsDuration concurrency : Nat)
    (wf : Nat → Nat → Except Unit WorkerResult) (runDuration : Nat) :
    Except Unit (List WorkerResult) :=
  let dur := if isAsync then argsDuration else runDuration
  (List.range concurrency).mapM (fun i => wf i dur)

/-- The inner `try` of the runner (lines 220-225): the warmup pass when
`args.warmup_time` is truthy — its result value discarded — followed by
the measured pass.  Returns the pass outcome together with the number of
`_do_run` invocations; a worker raising in either pass becomes the
propagating execution error. -/
def innerPasses (inp : RunnerInput) : Except RunError (List WorkerResult) × Nat :=
  if inp.warmupTime ≠ 0 then
    match do_run inp.isAsync inp.duration inp.concurrency (inp.workerFn 0)
        inp.warmupTime with
    | .error _ => (.error .executionError, 1)
    | .ok _ =>
      match do_run inp.isAsync inp.duration inp.concurrency (inp.workerFn 1)
          inp.duration with
      | .error _ => (.error .executionError, 2)
      | .ok rs => (.ok rs, 2)
  else
    match do_run inp.isAsync inp.duration inp.concurrency (inp.workerFn 1)
        inp.duration with
    | .error _ => (.error .executionError, 1)
    | .ok rs => (.ok rs, 1)

/-- The body of the outer `try` after the inner `try`/`finally`
(lines 233-277): if the passes raised, the error propagates; otherwise
aggregate, run the copy post-check (on `admin_conn` — unbound when setup
never ran) and build the report. -/
def runOutcome (inp : RunnerInput) (qargs : List QueryArg) (adminConn : Bool)
    (innerRes : Except RunError (List WorkerResult)) : Except RunError Report :=
  match innerRes with
  | .error e => .error e
  | .ok results =>
    let agg := mergeResults results
    if isCopyQuery inp.query then
      if adminConn = false then .error .unboundAdminName
      else if inp.copyRowcount < rowsPerIter qargs * agg.queries then
        .error .incompleteCopy
      else mkReport inp agg
    else mkReport inp agg

/-- The outer `finally` (lines 279-281): execute the teardown statement
when it is truthy — referencing `admin_conn`, which is unbound
(`UnboundLocalError`, replacing any in-flight exception) when `setup`
never ran. -/
def teardownStep (teardown : Option String) (adminConn : Bool)
    (outcome : Except RunError Report) (log : RunLog) :
    Except RunError Report × RunLog :=
  if truthyStr teardown then
    if adminConn then (outcome, { log with teardownRuns := 1 })
    else (.error .unboundAdminName, log)
  else (outcome, log)

/-- The full `runner` lifecycle (lines 151-283): COPY validation and
transformation, connection acquisition, administrative setup, the
warmup pass (result discarded) and the measured pass inside a `try`
whose `finally` closes every worker connection, aggregation, the copy
post-check on the administrative connection, report construction, and
the outer `finally` that executes the teardown statement — which
references `admin_conn` even when `setup` never assigned it. -/
def runner (inp : RunnerInput) : Except RunError Report × RunLog :=
  match prepArgs inp.hasCopyExecutor inp.query inp.queryArgs with
  | .error e => (.error e, {})
  | .ok qargs =>
    match openConns inp.connectOk inp.concurrency 0 with
    | (.error e, opened) => (.error e, { connsOpened := opened })
    | (.ok _, opened) =>
      let adminConn := truthyStr inp.setup
      let log : RunLog :=
        { connsOpened := opened
          connsClosed := opened
          adminOpened := adminConn
          setupRuns := if adminConn then 1 else 0
          doRunCalls := (innerPasses inp).2 }
      teardownStep inp.teardown adminConn
        (runOutcome inp qargs adminConn (innerPasses inp).1) log

/-- The `__main__`-level fatal conditions before the runner starts. -/
inductive MainError where
  | missingQuery
  | setupWithoutTeardown
  | runFailed (e : RunError)
deriving DecidableEq

/-- The query-file validation of `__main__` (lines 334-348):
`die` on a missing/empty `query`, and `die` when `setup` is truthy but
`teardown` is not — all before `runner` is invoked. -/
def validateJob (query setup teardown : Option String) : Option MainError :=
  if truthyStr query = false then some .missingQuery
  else if truthyStr setup = true ∧ truthyStr teardown = false then
    some .setupWithoutTeardown
  else none

/-- `__main__` followed by the runner: a failed validation dies before
any connection is opened (empty effect log); otherwise the runner runs
with the job's query/setup/teardown. -/
def mainModel (query setup teardown : Option String) (inp : RunnerInput) :
    Except MainError Report × RunLog :=
  match validateJob query setup teardown with
  | some e => (.error e, {})
  | none =>
    let out := runner { inp with query := query.getD "", setup := setup,
                                 teardown := teardown }
    (match out.1 with
     | .ok rep => .ok rep
     | .error e => .error (.runFailed e), out.2)

/-! ## Worker characterization lemmas -/

/-- `bumpHist h s` is the state of the histogram after recording sample
`s` into `h` (the pure content of `latency_stats[req_time] += 1`). -/
def bumpHist (h : List Nat) (s : Nat × Nat) : List Nat :=
  h.set s.1 (h.getD s.1 0 + 1)

/-- Running-minimum update of the loop body, on `WithTop ℕ`. -/
def minStep (m : WithTop Nat) (s : Nat × Nat) : WithTop Nat :=
  if (s.1 : WithTop Nat) < m then (s.1 : WithTop Nat) else m

/-- Running-maximum update of the loop body. -/
def maxStep (m : Nat) (s : Nat × Nat) : Nat :=
  if s.1 > m then s.1 else m

/-- The histogram a worker accumulates over a trace, starting from the
all-zero buckets. -/
def traceHist (size : Nat) (trace : List (Nat × Nat)) : List Nat :=
  trace.foldl bumpHist (List.replicate size 0)

/-- The minimum latency over a trace (⊤ when the trace is empty). -/
def traceMin (trace : List (Nat × Nat)) : WithTop Nat := trace.foldl minStep ⊤

/-- The maximum latency over a trace (0 when the trace is empty). -/
def traceMax (trace : List (Nat × Nat)) : Nat := trace.foldl maxStep 0

theorem recordSample_ok (st : WorkerResult) (s : Nat × Nat)
    (h : s.1 < st.latency_stats.length) :
    recordSample st s = .ok
      { queries := st.queries + 1
        rows := st.rows + s.2
        latency_stats := bumpHist st.latency_stats s
        min_latency := minStep st.min_latency s
        max_latency := maxStep st.max_latency s } := by
  simp only [recordSample, bumpHist, minStep, maxStep, dif_pos h]
  rw [List.getD_eq_getElem st.latency_stats 0 h]

theorem recordSample_err (st : WorkerResult) (s : Nat × Nat)
    (h : st.latency_stats.length ≤ s.1) :
    recordSample st s = .error () := by
  simp only [recordSample, dif_neg (Nat.not_lt.mpr h)]

theorem workerLoop_cons_ok {st st' : WorkerResult} {s : Nat × Nat}
    {rest : List (Nat × Nat)} (h : recordSample st s = .ok st') :
    workerLoop st (s :: rest) = workerLoop st' rest := by
  rw [workerLoop, h]

theorem workerLoop_cons_err {st : WorkerResult} {s : Nat × Nat}
    {rest : List (Nat × Nat)} (h : recordSample st s = .error ()) :
    workerLoop st (s :: rest) = .error () := by
  rw [workerLoop, h]

/-- Full characterization of a successful loop run: starting from `st`,
a trace whose bucket indices all fit in the histogram produces the
evident fold over the trace in every component. -/
theorem workerLoop_char : ∀ (trace : List (Nat × Nat)) (st : WorkerResult),
    (∀ s ∈ trace, s.1 < st.latency_stats.length) →
    workerLoop st trace = .ok
      { queries := st.queries + trace.length
        rows := st.rows + (trace.map Prod.snd).sum
        latency_stats := trace.foldl bumpHist st.latency_stats
        min_latency := trace.foldl minStep st.min_latency
        max_latency := trace.foldl maxStep st.max_latency }
  | [], st => by intro _; simp [workerLoop]
  | s :: rest, st => by
    intro hb
    have hs : s.1 < st.latency_stats.length := hb s (by simp)
    rw [workerLoop_cons_ok (recordSample_ok st s hs)]
    have hlen : (bumpHist st.latency_stats s).length = st.latency_stats.length := by
      simp [bumpHist]
    have hrest : ∀ x ∈ rest, x.1 < (bumpHist st.latency_stats s).length := by
      intro x hx; rw [hlen]; exact hb x (by simp [hx])
    rw [workerLoop_char rest _ hrest]
    simp only [List.length_cons, List.map_cons, List.sum_cons, List.foldl_cons,
      Except.ok.injEq, WorkerResult.mk.injEq]
    refine ⟨?_, ?_, ?_, ?_, ?_⟩ <;> first | omega | trivial

/-- A trace containing an out-of-range bucket index always aborts the
worker with the `IndexError`. -/
theorem workerLoop_err : ∀ (trace : List (Nat × Nat)) (st : WorkerResult),
    (∃ s ∈ trace, st.latency_stats.length ≤ s.1) →
    workerLoop st trace = .error ()
  | [], st => by rintro ⟨s, hs, -⟩; simp at hs
  | s :: rest, st => by
    rintro ⟨x, hx, hover⟩
    by_cases hs : s.1 < st.latency_stats.length
    · rw [workerLoop_cons_ok (recordSample_ok st s hs)]
      have hlen : (bumpHist st.latency_stats s).length = st.latency_stats.length := by
        simp [bumpHist]
      rcases List.mem_cons.mp hx with hx1 | hx2
      · subst hx1; exact absurd hs (Nat.not_lt.mpr hover)
      · exact workerLoop_err rest _ ⟨x, hx2, by rw [hlen]; exact hover⟩
    · exact workerLoop_cons_err (recordSample_err st s (Nat.not_lt.mp hs))

theorem runWorker_ok_of_bounds (timeoutMs : Nat) (trace : List (Nat × Nat))
    (hb : ∀ s ∈ trace, s.1 < timeoutMs * 100) :
    runWorker timeoutMs trace = .ok
      { queries := trace.length
        rows := (trace.map Prod.snd).sum
        latency_stats := traceHist (timeoutMs * 100) trace
        min_latency := traceMin trace
        max_latency := traceMax trace } := by
  have hb' : ∀ s ∈ trace, s.1 < (workerInit timeoutMs).latency_stats.length := by
    simpa [workerInit] using hb
  rw [runWorker, workerLoop_char trace _ hb']
  simp [workerInit, traceHist, traceMin, traceMax]

theorem runWorker_err_of_overflow (timeoutMs : Nat) (trace : List (Nat × Nat))
    (hover : ∃ s ∈ trace, timeoutMs * 100 ≤ s.1) :
    runWorker timeoutMs trace = .error () := by
  apply workerLoop_err
  simpa [workerInit] using hover

theorem runWorker_ok_bounds (timeoutMs : Nat) (trace : List (Nat × Nat))
    (r : WorkerResult) (h : runWorker timeoutMs trace = .ok r) :
    ∀ s ∈ trace, s.1 < timeoutMs * 100 := by
  by_contra hc
  push_neg at hc
  obtain ⟨s, hs, hover⟩ := hc
  rw [runWorker_err_of_overflow timeoutMs trace ⟨s, hs, hover⟩] at h
  exact Except.noConfusion h

/-! ## Histogram arithmetic lemmas -/

theorem sum_replicate_zero (n : Nat) : (List.replicate n (0 : Nat)).sum = 0 := by
  simp [List.sum_replicate]

theorem getD_set_self (h : List Nat) (i a : Nat) (hi : i < h.length) :
    (h.set i a).getD i 0 = a := by
  rw [List.getD_eq_getElem _ 0 (by simpa using hi)]
  exact List.getElem_set_self _

theorem getD_set_ne (h : List Nat) (i j a : Nat) (hne : i ≠ j) :
    (h.set i a).getD j 0 = h.getD j 0 := by
  by_cases hj : j < h.length
  · rw [List.getD_eq_getElem _ 0 (by simpa using hj), List.getD_eq_getElem _ 0 hj]
    exact List.getElem_set_ne hne _
  · rw [List.getD_eq_default _ 0 (by simpa using Nat.not_lt.mp hj),
      List.getD_eq_default _ 0 (by simpa using Nat.not_lt.mp hj)]

theorem getD_replicate_zero (n i : Nat) : (List.replicate n (0 : Nat)).getD i 0 = 0 := by
  by_cases hi : i < n
  · rw [List.getD_eq_getElem _ 0 (by simpa using hi)]
    exact List.getElem_replicate ..
  · rw [List.getD_eq_default _ 0 (by simpa using Nat.not_lt.mp hi)]

theorem sum_set_succ (h : List Nat) (i : Nat) (hi : i < h.length) :
    (h.set i (h.getD i 0 + 1)).sum = h.sum + 1 := by
  induction h generalizing i with
  | nil => simp at hi
  | cons a t ih =>
    cases i with
    | zero => simp [List.set]; omega
    | succ j =>
      have hj : j < t.length := by simpa using hi
      simp only [List.set, List.getD_cons_succ, List.sum_cons, ih j hj]
      omega

theorem length_foldl_bumpHist (trace : List (Nat × Nat)) :
    ∀ h : List Nat, (trace.foldl bumpHist h).length = h.length := by
  induction trace with
  | nil => intro h; rfl
  | cons s rest ih =>
    intro h
    simp only [List.foldl_cons, ih, bumpHist, List.length_set]

theorem sum_foldl_bumpHist (trace : List (Nat × Nat)) :
    ∀ h : List Nat, (∀ s ∈ trace, s.1 < h.length) →
      (trace.foldl bumpHist h).sum = h.sum + trace.length := by
  induction trace with
  | nil => intro h _; rfl
  | cons s rest ih =>
    intro h hb
    have hs : s.1 < h.length := hb s (by simp)
    have hrest : ∀ x ∈ rest, x.1 < (bumpHist h s).length := by
      intro x hx
      simpa [bumpHist] using hb x (by simp [hx])
    rw [List.foldl_cons, ih (bumpHist h s) hrest]
    have hsum : (bumpHist h s).sum = h.sum + 1 := sum_set_succ h s.1 hs
    rw [hsum, List.length_cons]
    omega

theorem foldl_bumpHist_replicate_const :
    ∀ (m : Nat) (h : List Nat) (i r : Nat), i < h.length →
      (List.replicate (m + 1) (i, r)).foldl bumpHist h = h.set i (h.getD i 0 + (m + 1)) := by
  intro m
  induction m with
  | zero => intro h i r _; simp [bumpHist]
  | succ k ih =>
    intro h i r hi
    rw [List.replicate_succ, List.foldl_cons]
    have hib : i < (bumpHist h (i, r)).length := by simpa [bumpHist] using hi
    rw [ih (bumpHist h (i, r)) i r hib]
    simp only [bumpHist, getD_set_self h i _ hi, List.set_set]
    congr 1
    omega

theorem traceHist_replicate_const (size m i r : Nat) (hi : i < size) :
    traceHist size (List.replicate (m + 1) (i, r)) =
      (List.replicate size 0).set i (m + 1) := by
  rw [traceHist, foldl_bumpHist_replicate_const m _ i r (by simpa using hi),
    getD_replicate_zero, Nat.zero_add]

theorem sum_replicate_zero_set (n i k : Nat) (hi : i < n) :
    ((List.replicate n (0 : Nat)).set i k).sum = k := by
  induction n generalizing i with
  | zero => simp at hi
  | succ m ih =>
    rw [List.replicate_succ]
    cases i with
    | zero => simp [List.set, sum_replicate_zero]
    | succ j =>
      have hj : j < m := by omega
      simp [List.set, ih j hj]

/-! ## Aggregator lemmas -/

theorem histAdd_comm : ∀ h1 h2 : List Nat, histAdd h1 h2 = histAdd h2 h1 := by
  intro h1
  induction h1 with
  | nil => intro h2; cases h2 <;> rfl
  | cons a t ih =>
    intro h2
    cases h2 with
    | nil => rfl
    | cons b u => simp [histAdd, List.zipWith]; constructor; · omega
                  · simpa [histAdd] using ih u

theorem histAdd_assoc : ∀ h1 h2 h3 : List Nat,
    histAdd (histAdd h1 h2) h3 = histAdd h1 (histAdd h2 h3) := by
  intro h1
  induction h1 with
  | nil => intro h2 h3; rfl
  | cons a t ih =>
    intro h2 h3
    cases h2 with
    | nil => rfl
    | cons b u =>
      cases h3 with
      | nil => rfl
      | cons c v =>
        simp [histAdd, List.zipWith]
        constructor
        · omega
        · simpa [histAdd] using ih u v

theorem histAdd_right_comm (h h1 h2 : List Nat) :
    histAdd (histAdd h h1) h2 = histAdd (histAdd h h2) h1 := by
  rw [histAdd_assoc, histAdd_assoc, histAdd_comm h1 h2]

theorem histAdd_foldl_push : ∀ (l : List (List Nat)) (h b : List Nat),
    histAdd h (l.foldl histAdd b) = l.foldl histAdd (histAdd h b) := by
  intro l
  induction l with
  | nil => intro h b; rfl
  | cons x xs ih =>
    intro h b
    simp only [List.foldl_cons, ih, histAdd_assoc]

theorem length_histAdd (h1 h2 : List Nat) (hl : h1.length = h2.length) :
    (histAdd h1 h2).length = h1.length := by
  simp [histAdd, hl]

theorem getD_histAdd : ∀ (h1 h2 : List Nat), h1.length = h2.length →
    ∀ i, (histAdd h1 h2).getD i 0 = h1.getD i 0 + h2.getD i 0 := by
  intro h1
  induction h1 with
  | nil => intro h2 hl i; cases h2 with
    | nil => rfl
    | cons b u => simp at hl
  | cons a t ih =>
    intro h2 hl i
    cases h2 with
    | nil => simp at hl
    | cons b u =>
      cases i with
      | zero => rfl
      | succ j =>
        simp only [histAdd, List.zipWith, List.getD_cons_succ]
        exact ih u (by simpa using hl) j

/-- The running-minimum update of the aggregation loop is a lattice
`min`. -/
theorem if_lt_eq_min (x y : WithTop Nat) : (if y < x then y else x) = min x y := by
  rcases lt_trichotomy x y with h | h | h
  · rw [if_neg (by exact not_lt_of_gt h), min_eq_left h.le]
  · subst h; simp
  · rw [if_pos h, min_eq_right h.le]

/-- The running-maximum update of the aggregation loop is a lattice
`max`. -/
theorem if_gt_eq_max (x y : Nat) : (if y > x then y else x) = max x y := by
  rcases lt_trichotomy x y with h | h | h
  · rw [if_pos h, max_eq_right h.le]
  · subst h; simp
  · rw [if_neg (by exact not_lt_of_gt h), max_eq_left h.le]

/-- Histogram accumulation over the `None`-seeded option accumulator of
the aggregation loop. -/
def optHistAdd (o : Option (List Nat)) (h : List Nat) : Option (List Nat) :=
  match o with
  | none => some h
  | some g => some (histAdd g h)

theorem aggStep_fields (a : Agg) (r : WorkerResult) :
    aggStep a r =
      { queries := a.queries + r.queries
        rows := a.rows + r.rows
        latency_stats := optHistAdd a.latency_stats r.latency_stats
        min_latency := min a.min_latency r.min_latency
        max_latency := max a.max_latency r.max_latency } := by
  rw [aggStep]
  cases a.latency_stats <;>
    simp [optHistAdd, if_lt_eq_min, if_gt_eq_max]

theorem foldl_aggStep_queries : ∀ (rs : List WorkerResult) (a : Agg),
    (rs.foldl aggStep a).queries = a.queries + (rs.map WorkerResult.queries).sum := by
  intro rs
  induction rs with
  | nil => intro a; simp
  | cons r t ih =>
    intro a
    rw [List.foldl_cons, ih, aggStep_fields]
    simp
    omega

theorem foldl_aggStep_rows : ∀ (rs : List WorkerResult) (a : Agg),
    (rs.foldl aggStep a).rows = a.rows + (rs.map WorkerResult.rows).sum := by
  intro rs
  induction rs with
  | nil => intro a; simp
  | cons r t ih =>
    intro a
    rw [List.foldl_cons, ih, aggStep_fields]
    simp
    omega

theorem foldl_aggStep_min : ∀ (rs : List WorkerResult) (a : Agg),
    (rs.foldl aggStep a).min_latency =
      (rs.map WorkerResult.min_latency).foldl min a.min_latency := by
  intro rs
  induction rs with
  | nil => intro a; rfl
  | cons r t ih =>
    intro a
    rw [List.foldl_cons, ih, aggStep_fields, List.map_cons, List.foldl_cons]

theorem foldl_aggStep_max : ∀ (rs : List WorkerResult) (a : Agg),
    (rs.foldl aggStep a).max_latency =
      (rs.map WorkerResult.max_latency).foldl max a.max_latency := by
  intro rs
  induction rs with
  | nil => intro a; rfl
  | cons r t ih =>
    intro a
    rw [List.foldl_cons, ih, aggStep_fields, List.map_cons, List.foldl_cons]

theorem foldl_aggStep_hist : ∀ (rs : List WorkerResult) (a : Agg),
    (rs.foldl aggStep a).latency_stats =
      (rs.map WorkerResult.latency_stats).foldl optHistAdd a.latency_stats := by
  intro rs
  induction rs with
  | nil => intro a; rfl
  | cons r t ih =>
    intro a
    rw [List.foldl_cons, ih, aggStep_fields, List.map_cons, List.foldl_cons]

theorem foldl_optHistAdd_some : ∀ (hs : List (List Nat)) (h : List Nat),
    hs.foldl optHistAdd (some h) = some (hs.foldl histAdd h) := by
  intro hs
  induction hs with
  | nil => intro h; rfl
  | cons x xs ih => intro h; simp only [List.foldl_cons, optHistAdd, ih]

theorem foldl_optHistAdd_none (x : List Nat) (xs : List (List Nat)) :
    (x :: xs).foldl optHistAdd none = some (xs.foldl histAdd x) := by
  simp only [List.foldl_cons, optHistAdd, foldl_optHistAdd_some]

theorem aggStep_right_comm (a : Agg) (r1 r2 : WorkerResult) :
    aggStep (aggStep a r1) r2 = aggStep (aggStep a r2) r1 := by
  rw [aggStep_fields, aggStep_fields, aggStep_fields, aggStep_fields]
  simp only [Agg.mk.injEq]
  refine ⟨by omega, by omega, ?_, min_right_comm .., ?_⟩
  · cases a.latency_stats with
    | none =>
      simp only [optHistAdd, Option.some.injEq]
      exact histAdd_comm ..
    | some v =>
      simp only [optHistAdd, Option.some.injEq]
      exact histAdd_right_comm ..
  · rw [max_assoc, max_assoc, max_comm r1.max_latency r2.max_latency]

theorem mergeResults_perm (l1 l2 : List WorkerResult) (p : l1.Perm l2) :
    mergeResults l1 = mergeResults l2 := by
  rw [mergeResults, mergeResults]
  exact p.foldl_eq' (fun x _ y _ z => aggStep_right_comm z x y) initAgg

theorem foldl_min_le_init (l : List (WithTop Nat)) :
    ∀ a : WithTop Nat, l.foldl min a ≤ a := by
  induction l with
  | nil => intro a; exact le_refl a
  | cons x xs ih =>
    intro a
    rw [List.foldl_cons]
    exact le_trans (ih (min a x)) (min_le_left a x)

theorem foldl_min_le_mem (l : List (WithTop Nat)) :
    ∀ (a x : WithTop Nat), x ∈ l → l.foldl min a ≤ x := by
  induction l with
  | nil => intro a x hx; simp at hx
  | cons y ys ih =>
    intro a x hx
    rw [List.foldl_cons]
    rcases List.mem_cons.mp hx with h1 | h2
    · subst h1
      exact le_trans (foldl_min_le_init ys (min a x)) (min_le_right a x)
    · exact ih (min a y) x h2

theorem le_foldl_max_init (l : List Nat) :
    ∀ a : Nat, a ≤ l.foldl max a := by
  induction l with
  | nil => intro a; exact le_refl a
  | cons x xs ih =>
    intro a
    rw [List.foldl_cons]
    exact le_trans (le_max_left a x) (ih (max a x))

theorem le_foldl_max_mem (l : List Nat) :
    ∀ (a x : Nat), x ∈ l → x ≤ l.foldl max a := by
  induction l with
  | nil => intro a x hx; simp at hx
  | cons y ys ih =>
    intro a x hx
    rw [List.foldl_cons]
    rcases List.mem_cons.mp hx with h1 | h2
    · subst h1
      exact le_trans (le_max_right a x) (le_foldl_max_init ys (max a x))
    · exact ih (max a y) x h2

theorem foldl_min_push (l : List (WithTop Nat)) :
    ∀ a b : WithTop Nat, l.foldl min (min a b) = min a (l.foldl min b) := by
  induction l with
  | nil => intro a b; rfl
  | cons x xs ih =>
    intro a b
    rw [List.foldl_cons, List.foldl_cons, min_assoc, ih]

theorem foldl_max_push (l : List Nat) :
    ∀ a b : Nat, l.foldl max (max a b) = max a (l.foldl max b) := by
  induction l with
  | nil => intro a b; rfl
  | cons x xs ih =>
    intro a b
    rw [List.foldl_cons, List.foldl_cons, max_assoc, ih]

/-- A nonempty group's merged histogram is present. -/
theorem mergeResults_hist_eq (r : WorkerResult) (t : List WorkerResult) :
    (mergeResults (r :: t)).latency_stats =
      some ((t.map WorkerResult.latency_stats).foldl histAdd r.latency_stats) := by
  rw [mergeResults, foldl_aggStep_hist, List.map_cons]
  exact foldl_optHistAdd_none ..

theorem agg_ext {x y : Agg} (h1 : x.queries = y.queries) (h2 : x.rows = y.rows)
    (h3 : x.latency_stats = y.latency_stats) (h4 : x.min_latency = y.min_latency)
    (h5 : x.max_latency = y.max_latency) : x = y := by
  cases x; cases y; simp_all

/-- Absorbing a whole group-merge into an accumulator is the same as
folding the group element-by-element: the key step of the grouping
property of aggregation. -/
theorem aggStep_absorb_merge : ∀ (g : List WorkerResult), g ≠ [] → ∀ a : Agg,
    aggStep a (aggResult (mergeResults g)) = g.foldl aggStep a := by
  intro g hg a
  rcases g with - | ⟨r, t⟩
  · exact absurd rfl hg
  apply agg_ext
  · rw [aggStep_fields]
    simp only [aggResult, mergeResults, foldl_aggStep_queries]
    simp [initAgg]
  · rw [aggStep_fields]
    simp only [aggResult, mergeResults, foldl_aggStep_rows]
    simp [initAgg]
  · rw [aggStep_fields]
    simp only [aggResult, mergeResults_hist_eq, Option.getD_some]
    rw [foldl_aggStep_hist (r :: t) a, List.map_cons, List.foldl_cons]
    cases hcase : a.latency_stats with
    | none =>
      simp only [optHistAdd]
      rw [foldl_optHistAdd_some]
    | some h =>
      simp only [optHistAdd]
      rw [foldl_optHistAdd_some, histAdd_foldl_push]
  · rw [aggStep_fields]
    simp only [aggResult]
    rw [foldl_aggStep_min (r :: t) a, mergeResults, foldl_aggStep_min (r :: t) initAgg]
    simp only [initAgg, List.map_cons, List.foldl_cons]
    rw [show min (⊤ : WithTop Nat) r.min_latency = r.min_latency from
      min_eq_right le_top]
    exact (foldl_min_push ..).symm
  · rw [aggStep_fields]
    simp only [aggResult]
    rw [foldl_aggStep_max (r :: t) a, mergeResults, foldl_aggStep_max (r :: t) initAgg]
    simp only [initAgg, List.map_cons, List.foldl_cons]
    rw [show max 0 r.max_latency = r.max_latency from max_eq_right (Nat.zero_le _)]
    exact (foldl_max_push ..).symm

/-- Grouping invariance of aggregation: merging the per-group merges of
any partition into nonempty groups equals merging the flat sequence. -/
theorem mergeResults_groups : ∀ (gs : List (List WorkerResult)),
    (∀ g ∈ gs, g ≠ []) →
    mergeResults (gs.map fun g => aggResult (mergeResults g)) =
      mergeResults gs.flatten := by
  have key : ∀ (gs : List (List WorkerResult)), (∀ g ∈ gs, g ≠ []) → ∀ a : Agg,
      (gs.map fun g => aggResult (mergeResults g)).foldl aggStep a =
        gs.flatten.foldl aggStep a := by
    intro gs
    induction gs with
    | nil => intro _ a; rfl
    | cons g gs' ih =>
      intro hne a
      rw [List.map_cons, List.foldl_cons, List.flatten_cons, List.foldl_append,
        aggStep_absorb_merge g (hne g (by simp)) a]
      exact ih (fun x hx => hne x (by simp [hx])) _
  intro gs hne
  exact key gs hne initAgg

theorem foldl_histAdd_getD : ∀ (hs : List (List Nat)) (h : List Nat) (L : Nat),
    h.length = L → (∀ x ∈ hs, x.length = L) →
    (hs.foldl histAdd h).length = L ∧
      ∀ i, (hs.foldl histAdd h).getD i 0 =
        h.getD i 0 + (hs.map (fun x => x.getD i 0)).sum := by
  intro hs
  induction hs with
  | nil =>
    intro h L hh _
    exact ⟨hh, fun i => by simp⟩
  | cons x xs ih =>
    intro h L hh hxs
    have hx : x.length = L := hxs x (by simp)
    have hadd : (histAdd h x).length = L := by
      rw [length_histAdd h x (by rw [hh, hx])]; exact hh
    obtain ⟨hl, hg⟩ := ih (histAdd h x) L hadd (fun y hy => hxs y (by simp [hy]))
    refine ⟨by simpa using hl, fun i => ?_⟩
    rw [List.foldl_cons, hg i, getD_histAdd h x (by rw [hh, hx]) i]
    simp only [List.map_cons, List.sum_cons]
    omega

theorem mergeResults_hist_pointwise (rs : List WorkerResult) (L : Nat)
    (hne : rs ≠ []) (hL : ∀ r ∈ rs, r.latency_stats.length = L) :
    ∃ H, (mergeResults rs).latency_stats = some H ∧ H.length = L ∧
      ∀ i, H.getD i 0 = (rs.map (fun r => r.latency_stats.getD i 0)).sum := by
  rcases rs with - | ⟨r, t⟩
  · exact absurd rfl hne
  refine ⟨(t.map WorkerResult.latency_stats).foldl histAdd r.latency_stats,
    mergeResults_hist_eq r t, ?_, ?_⟩
  · exact (foldl_histAdd_getD (t.map WorkerResult.latency_stats) r.latency_stats L
      (hL r (by simp)) (by rintro x hx
                           obtain ⟨y, hy, rfl⟩ := List.mem_map.mp hx
                           exact hL y (by simp [hy]))).1
  · intro i
    have := (foldl_histAdd_getD (t.map WorkerResult.latency_stats) r.latency_stats L
      (hL r (by simp)) (by rintro x hx
                           obtain ⟨y, hy, rfl⟩ := List.mem_map.mp hx
                           exact hL y (by simp [hy]))).2 i
    rw [this, List.map_cons, List.sum_cons, List.map_map]
    rfl

/-! ## Claim C4: the aggregator's merge -/

/-- C4.  The aggregator's merge of a sequence of WorkerResults sums the
query and row counters, element-wise sums the (equal-length) histograms,
takes the global minimum of the per-worker minima and the global maximum
of the per-worker maxima, is deterministic (it is a pure function of the
sequence), is invariant under every permutation of the sequence, is
associative in the grouping sense (merging the per-group merges of any
partition into nonempty groups equals merging the flat sequence), and
its global min is ≤ every per-worker min and its global max ≥ every
per-worker max. -/
theorem C4_aggregator_merge :
    (∀ rs : List WorkerResult,
      (mergeResults rs).queries = (rs.map WorkerResult.queries).sum ∧
      (mergeResults rs).rows = (rs.map WorkerResult.rows).sum ∧
      (mergeResults rs).min_latency = (rs.map WorkerResult.min_latency).foldl min ⊤ ∧
      (mergeResults rs).max_latency = (rs.map WorkerResult.max_latency).foldl max 0) ∧
    (∀ (rs : List WorkerResult) (L : Nat), rs ≠ [] →
      (∀ r ∈ rs, r.latency_stats.length = L) →
      ∃ H, (mergeResults rs).latency_stats = some H ∧ H.length = L ∧
        ∀ i, H.getD i 0 = (rs.map (fun r => r.latency_stats.getD i 0)).sum) ∧
    (∀ l1 l2 : List WorkerResult, l1.Perm l2 → mergeResults l1 = mergeResults l2) ∧
    (∀ gs : List (List WorkerResult), (∀ g ∈ gs, g ≠ []) →
      mergeResults (gs.map fun g => aggResult (mergeResults g)) =
        mergeResults gs.flatten) ∧
    (∀ (rs : List WorkerResult) (r : WorkerResult), r ∈ rs →
      (mergeResults rs).min_latency ≤ r.min_latency ∧
      r.max_latency ≤ (mergeResults rs).max_latency) := by
  refine ⟨?_, mergeResults_hist_pointwise, mergeResults_perm, mergeResults_groups, ?_⟩
  · intro rs
    refine ⟨?_, ?_, ?_, ?_⟩
    · rw [mergeResults, foldl_aggStep_queries]; simp [initAgg]
    · rw [mergeResults, foldl_aggStep_rows]; simp [initAgg]
    · rw [mergeResults, foldl_aggStep_min]; rfl
    · rw [mergeResults, foldl_aggStep_max]; rfl
  · intro rs r hr
    constructor
    · rw [mergeResults, foldl_aggStep_min]
      exact foldl_min_le_mem _ _ r.min_latency (List.mem_map.mpr ⟨r, hr, rfl⟩)
    · rw [mergeResults, foldl_aggStep_max]
      exact le_foldl_max_mem _ _ r.max_latency (List.mem_map.mpr ⟨r, hr, rfl⟩)

/-- Two small concrete worker results used to exercise
`C4_aggregator_merge`. -/
def c4w1 : WorkerResult :=
  { queries := 2, rows := 5, latency_stats := [1, 0, 1], min_latency := (0 : Nat),
    max_latency := 2 }

/-- See `c4w1`. -/
def c4w2 : WorkerResult :=
  { queries := 1, rows := 3, latency_stats := [0, 1, 0], min_latency := (1 : Nat),
    max_latency := 1 }

/-- Witness for `C4_aggregator_merge` at concrete worker results:
a transposition of a two-element sequence, a concrete partition, a
concrete equal-length histogram family, and a concrete member bound. -/
theorem C4_aggregator_merge_witness :
    mergeResults [c4w1, c4w2] = mergeResults [c4w2, c4w1] ∧
    mergeResults ([[c4w1], [c4w2]].map fun g => aggResult (mergeResults g)) =
      mergeResults ([[c4w1], [c4w2]].flatten) ∧
    (∃ H, (mergeResults [c4w1, c4w2]).latency_stats = some H ∧ H.length = 3 ∧
      ∀ i, H.getD i 0 = ([c4w1, c4w2].map (fun r => r.latency_stats.getD i 0)).sum) ∧
    ((mergeResults [c4w1, c4w2]).min_latency ≤ c4w1.min_latency ∧
      c4w1.max_latency ≤ (mergeResults [c4w1, c4w2]).max_latency) :=
  ⟨C4_aggregator_merge.2.2.1 [c4w1, c4w2] [c4w2, c4w1] (by decide),
   C4_aggregator_merge.2.2.2.1 [[c4w1], [c4w2]] (by decide),
   C4_aggregator_merge.2.1 [c4w1, c4w2] 3 (by decide) (by decide),
   C4_aggregator_merge.2.2.2.2 [c4w1, c4w2] c4w1 (by decide)⟩

/-! ## Constant-trace worker lemmas (deterministic stub adapter) -/

theorem foldl_minStep_const (x r : Nat) : ∀ m : Nat,
    (List.replicate m (x, r)).foldl minStep (x : WithTop Nat) = x := by
  intro m
  induction m with
  | zero => rfl
  | succ k ih =>
    rw [List.replicate_succ, List.foldl_cons,
      show minStep (x : WithTop Nat) (x, r) = (x : WithTop Nat) from by
        simp [minStep]]
    exact ih

theorem traceMin_replicate_const (x r m : Nat) :
    traceMin (List.replicate (m + 1) (x, r)) = (x : WithTop Nat) := by
  rw [traceMin, List.replicate_succ, List.foldl_cons,
    show minStep ⊤ (x, r) = (x : WithTop Nat) from by simp [minStep]]
  exact foldl_minStep_const x r m

theorem foldl_maxStep_const (x r : Nat) : ∀ m : Nat,
    (List.replicate m (x, r)).foldl maxStep x = x := by
  intro m
  induction m with
  | zero => rfl
  | succ k ih =>
    rw [List.replicate_succ, List.foldl_cons,
      show maxStep x (x, r) = x from by simp [maxStep]]
    exact ih

theorem traceMax_replicate_const (x r m : Nat) :
    traceMax (List.replicate (m + 1) (x, r)) = x := by
  rw [traceMax, List.replicate_succ, List.foldl_cons,
    show maxStep 0 (x, r) = x from by
      rw [maxStep, if_gt_eq_max]
      exact max_eq_right (Nat.zero_le x)]
  exact foldl_maxStep_const x r m

theorem histAdd_set_zero (n i a b : Nat) (hi : i < n) :
    histAdd ((List.replicate n 0).set i a) ((List.replicate n 0).set i b) =
      (List.replicate n 0).set i (a + b) := by
  apply List.ext_getElem
  · simp [histAdd]
  · intro j h1 h2
    simp only [histAdd] at h1 ⊢
    rw [List.getElem_zipWith]
    by_cases hij : i = j
    · subst hij
      rw [List.getElem_set_self (by simpa using hi),
        List.getElem_set_self (by simpa using hi),
        List.getElem_set_self (by simpa using hi)]
    · rw [List.getElem_set_ne hij, List.getElem_set_ne hij, List.getElem_set_ne hij]
      simp [List.getElem_replicate]

/-! ## Claims C1, C6, C7: the worker's histogram behaviour -/

/-- The result of one worker of the spec's stub scenario
(`--timeout 2`, 1 s measured duration, a stub executor taking exactly
10 ms — 1000 hundredths of a millisecond — and returning one row):
100 iterations, all recorded in bucket 1000 of the
`2 * 1000 * 100`-bucket histogram. -/
def c6wr : WorkerResult :=
  { queries := 100
    rows := 100
    latency_stats := (List.replicate 200000 0).set 1000 100
    min_latency := (1000 : Nat)
    max_latency := 1000 }

theorem c6_run_eq :
    runWorker (workerTimeoutMs 2) (stubTrace 200 1000 1 100000) = .ok c6wr := by
  have hms : workerTimeoutMs 2 = 2000 := by norm_num [workerTimeoutMs]
  have hstub : stubTrace 200 1000 1 100000 =
      List.replicate 100 ((1000 : Nat), (1 : Nat)) := by decide
  have hb : ∀ s ∈ List.replicate 100 ((1000 : Nat), (1 : Nat)), s.1 < 2000 * 100 := by
    intro s hs
    rw [List.eq_of_mem_replicate hs]
    norm_num
  rw [hms, hstub, runWorker_ok_of_bounds 2000 _ hb]
  have hhist : traceHist (2000 * 100) (List.replicate 100 ((1000 : Nat), (1 : Nat))) =
      (List.replicate 200000 0).set 1000 100 := by
    rw [show (100 : Nat) = 99 + 1 from rfl,
      traceHist_replicate_const (2000 * 100) 99 1000 1 (by norm_num)]
  rw [hhist,
    show (100 : Nat) = 99 + 1 from rfl,
    traceMin_replicate_const 1000 1 99, traceMax_replicate_const 1000 1 99]
  rfl

/-- C6 (counterexample to the bucket-placement part of the claim).
In the stub scenario (`concurrency=4`, `duration=1s`, `timeout=2s`,
10 ms executor returning 1 row), a worker's histogram holds its entire
mass — all 100 samples — in bucket 1000, not "near index 100": bucket
100 is empty, and 1000 is exactly the elapsed 10 ms converted to
hundredths of a millisecond with Python rounding. -/
theorem C6_counterexample :
    runWorker (workerTimeoutMs 2) (stubTrace 200 1000 1 100000) = .ok c6wr ∧
    c6wr.latency_stats.getD 100 0 = 0 ∧
    c6wr.latency_stats.getD 1000 0 = 100 ∧
    c6wr.latency_stats.sum = 100 ∧
    pyRound ((1 / 100 : ℚ) * 1000 * 100) = 1000 := by
  have hpy : pyRound ((1 / 100 : ℚ) * 1000 * 100) = 1000 := by
    have h : ((1 / 100 : ℚ) * 1000 * 100) = (1000 : ℚ) := by norm_num
    rw [pyRound, h]
    norm_num
  refine ⟨c6_run_eq, ?_, ?_, ?_, hpy⟩
  · rw [show c6wr.latency_stats = (List.replicate 200000 0).set 1000 100 from rfl,
      getD_set_ne _ 1000 100 _ (by norm_num), getD_replicate_zero]
  · exact getD_set_self _ 1000 100 (by rw [List.length_replicate]; norm_num)
  · exact sum_replicate_zero_set 200000 1000 100 (by norm_num)

/-- C6 (amended).  In the stub scenario the measured pass of the
deterministic model yields exactly `4 * (1000/10) = 400` queries, rows
equal to queries, and a merged histogram whose entire mass sits in
bucket 1000 — the elapsed 10 ms converted to hundredths of a millisecond
with rounding — rather than near index 100. -/
theorem C6_amended_stub_run :
    runWorker (workerTimeoutMs 2) (stubTrace 200 1000 1 100000) = .ok c6wr ∧
    (mergeResults (List.replicate 4 c6wr)).queries = 400 ∧
    (mergeResults (List.replicate 4 c6wr)).rows =
      (mergeResults (List.replicate 4 c6wr)).queries ∧
    (mergeResults (List.replicate 4 c6wr)).latency_stats =
      some ((List.replicate 200000 0).set 1000 400) ∧
    pyRound ((1 / 100 : ℚ) * 1000 * 100) = 1000 := by
  have hpy : pyRound ((1 / 100 : ℚ) * 1000 * 100) = 1000 := by
    have h : ((1 / 100 : ℚ) * 1000 * 100) = (1000 : ℚ) := by norm_num
    rw [pyRound, h]
    norm_num
  have hq : (mergeResults (List.replicate 4 c6wr)).queries = 400 := by
    rw [mergeResults, foldl_aggStep_queries, List.map_replicate]
    rfl
  refine ⟨c6_run_eq, hq, ?_, ?_, hpy⟩
  · rw [hq, mergeResults, foldl_aggStep_rows, List.map_replicate]
    rfl
  · rw [show List.replicate 4 c6wr = c6wr :: List.replicate 3 c6wr from rfl,
      mergeResults_hist_eq]
    rw [List.map_replicate]
    rw [show List.replicate 3 c6wr.latency_stats =
      [c6wr.latency_stats, c6wr.latency_stats, c6wr.latency_stats] from rfl]
    rw [show c6wr.latency_stats = (List.replicate 200000 0).set 1000 100 from rfl]
    rw [List.foldl_cons, List.foldl_cons, List.foldl_cons, List.foldl_nil]
    rw [histAdd_set_zero 200000 1000 100 100 (by norm_num),
      histAdd_set_zero 200000 1000 (100 + 100) 100 (by norm_num),
      histAdd_set_zero 200000 1000 (100 + 100 + 100) 100 (by norm_num)]

/-- C7.  For every worker run that completes, the histogram bucket
counts sum to exactly the number of queries the worker reports. -/
theorem C7_hist_sum_eq_queries (timeoutMs : Nat) (trace : List (Nat × Nat))
    (r : WorkerResult) (h : runWorker timeoutMs trace = .ok r) :
    r.latency_stats.sum = r.queries := by
  have hb := runWorker_ok_bounds timeoutMs trace r h
  have hchar := runWorker_ok_of_bounds timeoutMs trace hb
  rw [h] at hchar
  injection hchar with hr
  subst hr
  show (traceHist (timeoutMs * 100) trace).sum = trace.length
  rw [traceHist, sum_foldl_bumpHist trace _ (by simpa using hb), sum_replicate_zero]
  exact Nat.zero_add _

/-- A small concrete worker run exercising `C7_hist_sum_eq_queries`. -/
def c7wr : WorkerResult :=
  { queries := 2
    rows := 3
    latency_stats := ((List.replicate 100 0).set 5 1).set 7 1
    min_latency := (5 : Nat)
    max_latency := 7 }

/-- Witness for `C7_hist_sum_eq_queries` on a concrete two-sample run. -/
theorem C7_hist_sum_eq_queries_witness :
    runWorker 1 [(5, 2), (7, 1)] = .ok c7wr ∧
    c7wr.latency_stats.sum = c7wr.queries :=
  ⟨by decide, C7_hist_sum_eq_queries 1 [(5, 2), (7, 1)] c7wr (by decide)⟩

/-- C1 (amended).  The histogram a worker allocates has
`timeoutSec * 1000 * 100` buckets (the runner rescales the timeout to
milliseconds before sizing), so a completed run only ever records bucket
indices up to `timeoutSec * 100000 - 1` — not `timeoutSec * 100 - 1` as
claimed; and a sample at or beyond that ceiling is never written to an
out-of-range bucket: it aborts the worker with the propagating
`IndexError` (no clamping and no warning). -/
theorem C1_bucket_bound (timeoutSec : Nat) :
    (∀ (trace : List (Nat × Nat)) (r : WorkerResult),
        runWorker (workerTimeoutMs timeoutSec) trace = .ok r →
        ∀ s ∈ trace, s.1 ≤ timeoutSec * 100000 - 1) ∧
    (∀ trace : List (Nat × Nat),
        (∃ s ∈ trace, timeoutSec * 100000 ≤ s.1) →
        runWorker (workerTimeoutMs timeoutSec) trace = .error ()) := by
  have hsz : workerTimeoutMs timeoutSec * 100 = timeoutSec * 100000 := by
    rw [workerTimeoutMs]; ring
  constructor
  · intro trace r h s hs
    have := runWorker_ok_bounds (workerTimeoutMs timeoutSec) trace r h s hs
    omega
  · intro trace ⟨s, hs, hover⟩
    exact runWorker_err_of_overflow _ trace ⟨s, hs, by omega⟩

/-- The single-sample run exercising `C1_bucket_bound`. -/
def c1wit : WorkerResult :=
  { queries := 1
    rows := 1
    latency_stats := (List.replicate 100000 0).set 5 1
    min_latency := (5 : Nat)
    max_latency := 5 }

/-- Witness for `C1_bucket_bound` with `--timeout 1`: an in-range sample
completes and satisfies the bound, an out-of-range sample errors. -/
theorem C1_bucket_bound_witness :
    runWorker (workerTimeoutMs 1) [(5, 1)] = .ok c1wit ∧
    (∀ s ∈ [((5 : Nat), (1 : Nat))], s.1 ≤ 1 * 100000 - 1) ∧
    runWorker (workerTimeoutMs 1) [(100000, 1)] = .error () := by
  have hms : workerTimeoutMs 1 = 1000 := by norm_num [workerTimeoutMs]
  have h5 : runWorker (workerTimeoutMs 1) [(5, 1)] = .ok c1wit := by
    have hb : ∀ s ∈ [((5 : Nat), (1 : Nat))], s.1 < 1000 * 100 := by decide
    rw [hms, runWorker_ok_of_bounds 1000 _ hb]
    have hhist : traceHist (1000 * 100) [((5 : Nat), (1 : Nat))] =
        (List.replicate 100000 0).set 5 1 := by
      rw [show [((5 : Nat), (1 : Nat))] = List.replicate (0 + 1) ((5 : Nat), (1 : Nat))
        from rfl, traceHist_replicate_const (1000 * 100) 0 5 1 (by norm_num)]
    rw [hhist,
      show [((5 : Nat), (1 : Nat))] = List.replicate (0 + 1) ((5 : Nat), (1 : Nat))
        from rfl,
      traceMin_replicate_const 5 1 0, traceMax_replicate_const 5 1 0]
    rfl
  refine ⟨h5, fun s hs => (C1_bucket_bound 1).1 [(5, 1)] c1wit h5 s hs, ?_⟩
  · exact (C1_bucket_bound 1).2 [(100000, 1)] ⟨(100000, 1), by simp, by norm_num⟩

/-- The out-of-spec-but-in-range sample refuting C1 as stated. -/
def c1big : WorkerResult :=
  { queries := 1
    rows := 1
    latency_stats := (List.replicate 200000 0).set 1000 1
    min_latency := (1000 : Nat)
    max_latency := 1000 }

/-- C1 (counterexample).  With `--timeout 2` a 10 ms sample lands in
bucket 1000, far beyond the claimed ceiling `2 * 100 - 1 = 199`, and the
worker records it successfully — no error, no warning, no clamping. -/
theorem C1_counterexample :
    runWorker (workerTimeoutMs 2) [(1000, 1)] = .ok c1big ∧
    2 * 100 - 1 < 1000 ∧
    c1big.latency_stats.getD 1000 0 = 1 := by
  have hms : workerTimeoutMs 2 = 2000 := by norm_num [workerTimeoutMs]
  refine ⟨?_, by norm_num,
    getD_set_self _ 1000 1 (by rw [List.length_replicate]; norm_num)⟩
  have hb : ∀ s ∈ [((1000 : Nat), (1 : Nat))], s.1 < 2000 * 100 := by decide
  rw [hms, runWorker_ok_of_bounds 2000 _ hb]
  have hhist : traceHist (2000 * 100) [((1000 : Nat), (1 : Nat))] =
      (List.replicate 200000 0).set 1000 1 := by
    rw [show [((1000 : Nat), (1 : Nat))] = List.replicate (0 + 1) ((1000 : Nat), (1 : Nat))
      from rfl, traceHist_replicate_const (2000 * 100) 0 1000 1 (by norm_num)]
  rw [hhist,
    show [((1000 : Nat), (1 : Nat))] = List.replicate (0 + 1) ((1000 : Nat), (1 : Nat))
      from rfl,
    traceMin_replicate_const 1000 1 0, traceMax_replicate_const 1000 1 0]
  rfl

/-! ## Connection-acquisition lemmas -/

theorem openConns_ok (ok : Nat → Bool) : ∀ (n opened : Nat),
    (∀ i, opened ≤ i → i < opened + n → ok i = true) →
    openConns ok n opened = (.ok (), opened + n) := by
  intro n
  induction n with
  | zero => intro opened _; simp [openConns]
  | succ k ih =>
    intro opened h
    rw [openConns, if_pos (h opened (le_refl _) (by omega))]
    rw [ih (opened + 1) (fun i h1 h2 => h i (by omega) (by omega))]
    congr 1
    omega

theorem openConns_all_ok (ok : Nat → Bool) (n : Nat)
    (h : ∀ i, i < n → ok i = true) :
    openConns ok n 0 = (.ok (), n) := by
  have := openConns_ok ok n 0 (fun i _ h2 => h i (by omega))
  simpa using this

theorem openConns_fail (ok : Nat → Bool) : ∀ (n opened j : Nat),
    opened ≤ j → j < opened + n → ok j = false →
    (∀ i, opened ≤ i → i < j → ok i = true) →
    openConns ok n opened = (.error .connectError, j) := by
  intro n
  induction n with
  | zero => intro opened j h1 h2 _ _; omega
  | succ k ih =>
    intro opened j h1 h2 hfail hok
    by_cases hoj : opened = j
    · subst hoj
      rw [openConns, if_neg (by simp [hfail])]
    · rw [openConns, if_pos (hok opened (le_refl _) (by omega))]
      exact ih (opened + 1) j (by omega) (by omega) hfail
        (fun i hi1 hi2 => hok i (by omega) hi2)

/-! ## Runner lifecycle lemmas -/

theorem prepArgs_not_copy {query : String} (hnc : isCopyQuery query = false)
    (hasCopyExec : Bool) (args : List QueryArg) :
    prepArgs hasCopyExec query args = .ok args := by
  simp [prepArgs, hnc]

set_option maxHeartbeats 1000000 in
/-- Unfolding of the runner once COPY preparation and connection
acquisition have succeeded. -/
theorem runner_stages (inp : RunnerInput) (qargs : List QueryArg)
    (hprep : prepArgs inp.hasCopyExecutor inp.query inp.queryArgs = .ok qargs)
    (hopen : openConns inp.connectOk inp.concurrency 0 =
      (.ok (), inp.concurrency)) :
    runner inp = teardownStep inp.teardown (truthyStr inp.setup)
      (runOutcome inp qargs (truthyStr inp.setup) (innerPasses inp).1)
      { connsOpened := inp.concurrency
        connsClosed := inp.concurrency
        adminOpened := truthyStr inp.setup
        setupRuns := if truthyStr inp.setup then 1 else 0
        doRunCalls := (innerPasses inp).2 } := by
  rw [runner, hprep, hopen]

/-- A worker raising during the measured pass makes the inner `try`
propagate the execution error, whatever the warmup pass did. -/
theorem innerPasses_fail (inp : RunnerInput)
    (hm : do_run inp.isAsync inp.duration inp.concurrency (inp.workerFn 1)
      inp.duration = .error ()) :
    (innerPasses inp).1 = .error .executionError := by
  rw [innerPasses]
  by_cases hwu : inp.warmupTime = 0
  · simp [hwu, hm]
  · rcases hw : do_run inp.isAsync inp.duration inp.concurrency (inp.workerFn 0)
        inp.warmupTime with e | rs
    · simp [hwu, hw]
    · simp [hwu, hw, hm]

/-- Without a warmup pass, a successful measured pass is the inner
result. -/
theorem innerPasses_ok (inp : RunnerInput) (rs : List WorkerResult)
    (hwu : inp.warmupTime = 0)
    (hm : do_run inp.isAsync inp.duration inp.concurrency (inp.workerFn 1)
      inp.duration = .ok rs) :
    innerPasses inp = (.ok rs, 1) := by
  rw [innerPasses]
  simp [hwu, hm]

/-- When every connect succeeds and a worker pass raises, the runner
closes every worker connection, runs the teardown exactly once when
setup ran (validation guarantees teardown is then present), and
propagates the execution error. -/
theorem runner_exec_fail (inp : RunnerInput)
    (hnc : isCopyQuery inp.query = false)
    (hconn : ∀ i, i < inp.concurrency → inp.connectOk i = true)
    (hs : truthyStr inp.setup = true) (ht : truthyStr inp.teardown = true)
    (hm : do_run inp.isAsync inp.duration inp.concurrency (inp.workerFn 1)
      inp.duration = .error ()) :
    (runner inp).1 = .error .executionError ∧
    (runner inp).2.connsOpened = inp.concurrency ∧
    (runner inp).2.connsClosed = inp.concurrency ∧
    (runner inp).2.setupRuns = 1 ∧
    (runner inp).2.teardownRuns = 1 := by
  rw [runner_stages inp inp.queryArgs
    (prepArgs_not_copy hnc inp.hasCopyExecutor inp.queryArgs)
    (openConns_all_ok inp.connectOk inp.concurrency hconn)]
  rw [innerPasses_fail inp hm]
  rw [teardownStep, if_pos (by simp [ht]), if_pos (by simp [hs])]
  simp [runOutcome, hs]

theorem mainModel_of_valid (query setup teardown : Option String)
    (inp : RunnerInput) (hval : validateJob query setup teardown = none) :
    mainModel query setup teardown inp =
      (match (runner { inp with query := query.getD "", setup := setup,
                                teardown := teardown }).1 with
       | .ok rep => .ok rep
       | .error e => .error (.runFailed e),
       (runner { inp with query := query.getD "", setup := setup,
                          teardown := teardown }).2) := by
  rw [mainModel, hval]

/-! ## Claim C2: warmup pass duration and scheduling -/

/-- C2 (code evidence).  `_do_run`'s asynchronous branch hands
`args.duration` to every worker it spawns, ignoring its `run_duration`
parameter, while the thread-pool branch passes `run_duration`; so on an
async driver the warmup call `_do_run(args.warmup_time)` runs its
workers with the measured duration instead of the warmup duration.  At
the concrete failing input `--duration 30 --warmup-time 5` with one
async worker, the worker receives duration 30. -/
theorem C2_warmup_duration :
    (∀ (argsDuration runDuration concurrency : Nat)
        (wf : Nat → Nat → Except Unit WorkerResult),
      do_run true argsDuration concurrency wf runDuration =
        (List.range concurrency).mapM (fun i => wf i argsDuration)) ∧
    (∀ (argsDuration runDuration concurrency : Nat)
        (wf : Nat → Nat → Except Unit WorkerResult),
      do_run false argsDuration concurrency wf runDuration =
        (List.range concurrency).mapM (fun i => wf i runDuration)) ∧
    do_run true 30 1 (fun _ d => .ok ⟨d, 0, [], ⊤, 0⟩) 5 =
      .ok [⟨30, 0, [], ⊤, 0⟩] := by
  refine ⟨fun a r c wf => by simp [do_run], fun a r c wf => by simp [do_run], ?_⟩
  rfl

/-- Supporting fact for the warmup contract: the value of a successful
warmup pass is discarded — two runs whose warmup workers return
different results (both passes succeeding) have identical inner-pass
outcomes, since only the measured pass's workers contribute. -/
theorem warmup_results_discarded (inp : RunnerInput) (rs rs' : List WorkerResult)
    (wf' : Nat → Nat → Nat → Except Unit WorkerResult)
    (h1 : wf' 1 = inp.workerFn 1)
    (hw : do_run inp.isAsync inp.duration inp.concurrency (inp.workerFn 0)
      inp.warmupTime = .ok rs)
    (hw' : do_run inp.isAsync inp.duration inp.concurrency (wf' 0)
      inp.warmupTime = .ok rs') :
    innerPasses { inp with workerFn := wf' } = innerPasses inp := by
  rw [innerPasses, innerPasses]
  by_cases hwu : inp.warmupTime = 0
  · simp [hwu, h1]
  · simp [hwu, h1, hw, hw']

/-! ## Claim C3: teardown and connection release on execution failure -/

/-- C3.  If a worker's adapter call raises during the measured pass
(modelled by the measured `_do_run` failing), the program with a
validated job still closes every worker connection and, when setup was
run, executes the teardown statement exactly once on the administrative
connection, and then propagates the execution error to the caller. -/
theorem C3_teardown_after_exec_fail (query setup teardown : Option String)
    (inp : RunnerInput)
    (hq : truthyStr query = true)
    (hs : truthyStr setup = true) (ht : truthyStr teardown = true)
    (hnc : isCopyQuery (query.getD "") = false)
    (hconn : ∀ i, i < inp.concurrency → inp.connectOk i = true)
    (hm : do_run inp.isAsync inp.duration inp.concurrency (inp.workerFn 1)
      inp.duration = .error ()) :
    (mainModel query setup teardown inp).1 = .error (.runFailed .executionError) ∧
    (mainModel query setup teardown inp).2.connsOpened = inp.concurrency ∧
    (mainModel query setup teardown inp).2.connsClosed = inp.concurrency ∧
    (mainModel query setup teardown inp).2.setupRuns = 1 ∧
    (mainModel query setup teardown inp).2.teardownRuns = 1 := by
  have hval : validateJob query setup teardown = none := by
    simp [validateJob, hq, ht]
  have hrun := runner_exec_fail
    { inp with query := query.getD "", setup := setup, teardown := teardown }
    hnc hconn hs ht hm
  rw [mainModel_of_valid query setup teardown inp hval]
  obtain ⟨h1, h2, h3, h4, h5⟩ := hrun
  rw [h1]
  exact ⟨rfl, h2, h3, h4, h5⟩

/-- One worker result for the runner-level witnesses. -/
def cw0 : WorkerResult :=
  { queries := 2, rows := 4, latency_stats := [1, 1], min_latency := (0 : Nat),
    max_latency := 1 }

/-- A runner input whose measured-pass worker raises on worker 0,
exercising `C3_teardown_after_exec_fail`. -/
def c3input : RunnerInput :=
  { timeoutSec := 2
    concurrency := 2
    duration := 4
    warmupTime := 1
    isAsync := true
    hasCopyExecutor := false
    query := ""
    queryArgs := []
    setup := none
    teardown := none
    outputFormat := "text"
    connectOk := fun _ => true
    workerFn := fun p _ _ => if p = 1 then .error () else .ok cw0
    copyRowcount := 0 }

/-- Witness for `C3_teardown_after_exec_fail` on a concrete failing run. -/
theorem C3_teardown_after_exec_fail_witness :
    (mainModel (some "SELECT 1") (some "CREATE TABLE x (a int)")
      (some "DROP TABLE x") c3input).1 = .error (.runFailed .executionError) ∧
    (mainModel (some "SELECT 1") (some "CREATE TABLE x (a int)")
      (some "DROP TABLE x") c3input).2.connsClosed = c3input.concurrency ∧
    (mainModel (some "SELECT 1") (some "CREATE TABLE x (a int)")
      (some "DROP TABLE x") c3input).2.teardownRuns = 1 := by
  have h := C3_teardown_after_exec_fail (some "SELECT 1")
    (some "CREATE TABLE x (a int)") (some "DROP TABLE x") c3input
    (by decide) (by decide) (by decide) (by decide) (by decide) (by decide)
  exact ⟨h.1, h.2.2.1, h.2.2.2.2⟩

/-! ## Claim C5: a failing connect aborts before measurement -/

/-- C5 (amended).  A failing connect attempt aborts the run before any
measurement pass starts — but the connections already opened earlier in
the batch are not closed by the runner (there is no cleanup around the
acquisition loop): the log records `j` connections opened and zero
closed, zero `_do_run` calls, and the propagating connect error. -/
theorem C5_connect_fail_aborts (inp : RunnerInput) (qargs : List QueryArg)
    (j : Nat)
    (hprep : prepArgs inp.hasCopyExecutor inp.query inp.queryArgs = .ok qargs)
    (hj : j < inp.concurrency) (hfail : inp.connectOk j = false)
    (hok : ∀ i, i < j → inp.connectOk i = true) :
    runner inp = (.error .connectError, { connsOpened := j }) ∧
    (runner inp).2.connsClosed = 0 ∧
    (runner inp).2.doRunCalls = 0 := by
  have hopen := openConns_fail inp.connectOk inp.concurrency 0 j
    (Nat.zero_le j) (by omega) hfail (fun i _ h2 => hok i h2)
  have : runner inp = (.error .connectError, { connsOpened := j }) := by
    rw [runner, hprep, hopen]
  exact ⟨this, by rw [this], by rw [this]⟩

/-- The connection-failure scenario: three requested connections, the
second connect attempt fails. -/
def c5input : RunnerInput :=
  { timeoutSec := 2
    concurrency := 3
    duration := 1
    warmupTime := 0
    isAsync := true
    hasCopyExecutor := false
    query := "SELECT 1"
    queryArgs := []
    setup := none
    teardown := none
    outputFormat := "text"
    connectOk := fun i => i != 1
    workerFn := fun _ _ _ => .error ()
    copyRowcount := 0 }

/-- C5 (counterexample to the release part of the claim).  When the
second of three connect attempts fails, the run aborts with the connect
error before any measurement — but the one connection already opened is
never closed: `connsOpened = 1` while `connsClosed = 0`. -/
theorem C5_counterexample :
    runner c5input = (.error .connectError, { connsOpened := 1 }) ∧
    (runner c5input).2.connsOpened = 1 ∧
    (runner c5input).2.connsClosed = 0 ∧
    (runner c5input).2.doRunCalls = 0 := by
  have h : runner c5input = (.error .connectError, { connsOpened := 1 }) := by
    rw [runner, @prepArgs_not_copy c5input.query (by decide)
      c5input.hasCopyExecutor c5input.queryArgs,
      openConns_fail c5input.connectOk c5input.concurrency 0 1 (by omega)
        (by decide) (by decide) (by decide)]
  exact ⟨h, by rw [h], by rw [h], by rw [h]⟩

/-- Witness for `C5_connect_fail_aborts` at the concrete scenario. -/
theorem C5_connect_fail_aborts_witness :
    runner c5input = (.error .connectError, { connsOpened := 1 }) ∧
    (runner c5input).2.connsClosed = 0 ∧
    (runner c5input).2.doRunCalls = 0 :=
  C5_connect_fail_aborts c5input c5input.queryArgs 1
    (@prepArgs_not_copy c5input.query (by decide) c5input.hasCopyExecutor
      c5input.queryArgs)
    (by decide) (by decide) (by decide)

/-! ## Claim C9: setup without teardown dies before any connection -/

/-- C9.  A job with a (truthy) setup statement and no truthy teardown is
rejected by the `__main__` validation as a configuration error before
the runner starts: the result is the `setupWithoutTeardown` death and
the effect log is empty — zero connections of any kind were opened. -/
theorem C9_setup_without_teardown (query setup teardown : Option String)
    (inp : RunnerInput)
    (hq : truthyStr query = true)
    (hs : truthyStr setup = true) (ht : truthyStr teardown = false) :
    mainModel query setup teardown inp = (.error .setupWithoutTeardown, {}) ∧
    (mainModel query setup teardown inp).2.connsOpened = 0 := by
  have hval : validateJob query setup teardown = some .setupWithoutTeardown := by
    simp [validateJob, hq, hs, ht]
  constructor
  · rw [mainModel, hval]
  · rw [mainModel, hval]

/-- Witness for `C9_setup_without_teardown`. -/
theorem C9_setup_without_teardown_witness :
    mainModel (some "SELECT 1") (some "CREATE TABLE x (a int)") none c3input =
      (.error .setupWithoutTeardown, {}) ∧
    (mainModel (some "SELECT 1") (some "CREATE TABLE x (a int)") none
      c3input).2.connsOpened = 0 :=
  C9_setup_without_teardown (some "SELECT 1") (some "CREATE TABLE x (a int)")
    none c3input (by decide) (by decide) (by decide)

/-! ## Claim C10: teardown without setup hits an unbound admin_conn -/

/-- C10.  A job with a truthy teardown and no truthy setup passes
validation, but the guaranteed teardown step references `admin_conn`,
which only a setup assigns: the run ends with the unbound-name failure
instead of executing the teardown statement — zero teardown
executions — whatever the passes did. -/
theorem C10_teardown_without_setup (query setup teardown : Option String)
    (inp : RunnerInput)
    (hq : truthyStr query = true)
    (hs : truthyStr setup = false) (ht : truthyStr teardown = true)
    (hnc : isCopyQuery (query.getD "") = false)
    (hconn : ∀ i, i < inp.concurrency → inp.connectOk i = true) :
    validateJob query setup teardown = none ∧
    (mainModel query setup teardown inp).1 = .error (.runFailed .unboundAdminName) ∧
    (mainModel query setup teardown inp).2.teardownRuns = 0 := by
  have hval : validateJob query setup teardown = none := by
    simp [validateJob, hq, hs]
  rw [mainModel_of_valid query setup teardown inp hval]
  set inp2 : RunnerInput :=
    { inp with query := query.getD "", setup := setup, teardown := teardown }
    with hinp2
  rw [runner_stages inp2 inp.queryArgs
    (prepArgs_not_copy hnc inp.hasCopyExecutor inp.queryArgs)
    (openConns_all_ok inp.connectOk inp.concurrency hconn)]
  rw [teardownStep, if_pos (show truthyStr inp2.teardown = true from ht),
    if_neg (show ¬truthyStr inp2.setup = true from by
      rw [show truthyStr inp2.setup = truthyStr setup from rfl, hs]
      exact Bool.false_ne_true)]
  exact ⟨hval, rfl, rfl⟩

/-- Witness for `C10_teardown_without_setup` at a concrete job. -/
theorem C10_teardown_without_setup_witness :
    validateJob (some "SELECT 1") none (some "DROP TABLE x") = none ∧
    (mainModel (some "SELECT 1") none (some "DROP TABLE x") c3input).1 =
      .error (.runFailed .unboundAdminName) ∧
    (mainModel (some "SELECT 1") none (some "DROP TABLE x")
      c3input).2.teardownRuns = 0 :=
  C10_teardown_without_setup (some "SELECT 1") none (some "DROP TABLE x")
    c3input (by decide) (by decide) (by decide) (by decide) (by decide)

/-! ## Claim C8: bulk-copy expansion and post-check -/

/-- The report construction never raises the incomplete-copy error: on
the non-raising branch of the post-check the outcome is either the
report or, with no worker results, the attribute error on
`None.tolist()`. -/
theorem mkReport_ne_incomplete (inp : RunnerInput) (agg : Agg) :
    mkReport inp agg ≠ .error .incompleteCopy := by
  rw [mkReport]
  rcases hre : agg.latency_stats with - | h <;> simp

/-- The copy-path outcome of a successful measured pass with a live
administrative connection: the bare post-check comparison. -/
theorem runOutcome_copy_ok (inp : RunnerInput) (qargs : List QueryArg)
    (rs : List WorkerResult) (hc : isCopyQuery inp.query = true) :
    runOutcome inp qargs true (.ok rs) =
      if inp.copyRowcount < rowsPerIter qargs * (mergeResults rs).queries then
        .error .incompleteCopy
      else mkReport inp (mergeResults rs) := by
  rw [runOutcome]
  simp [hc]

/-- C8.  For a bulk-copy job whose args are `[{row, count := N}]` on an
adapter with bulk-copy capability, the runner replaces the payload with
`N` repetitions of the row template and appends `{table, columns}`
parsed from the query text as a trailing synthetic argument; and the
post-check of a completed run raises the incomplete-copy error exactly
when the fetched table row count is less than `N` times the total
queries across all workers. -/
theorem C8_copy_expansion_postcheck (inp : RunnerInput) (tbl : String)
    (cols : List String) (row : List String) (N : Nat) (rs : List WorkerResult)
    (hc : isCopyQuery inp.query = true)
    (hce : inp.hasCopyExecutor = true)
    (hp : parseCopyQuery inp.query = some (tbl, cols))
    (ha : inp.queryArgs = [QueryArg.spec row N])
    (hs : truthyStr inp.setup = true) (ht : truthyStr inp.teardown = true)
    (hconn : ∀ i, i < inp.concurrency → inp.connectOk i = true)
    (hwu : inp.warmupTime = 0)
    (hm : do_run inp.isAsync inp.duration inp.concurrency (inp.workerFn 1)
      inp.duration = .ok rs) :
    prepArgs inp.hasCopyExecutor inp.query inp.queryArgs =
      .ok [QueryArg.rows (List.replicate N row), QueryArg.meta ⟨tbl, cols⟩] ∧
    rowsPerIter [QueryArg.rows (List.replicate N row),
      QueryArg.meta ⟨tbl, cols⟩] = N ∧
    ((runner inp).1 = .error .incompleteCopy ↔
      inp.copyRowcount < N * (mergeResults rs).queries) := by
  have hprep : prepArgs inp.hasCopyExecutor inp.query inp.queryArgs =
      .ok [QueryArg.rows (List.replicate N row), QueryArg.meta ⟨tbl, cols⟩] := by
    rw [prepArgs]
    simp [hc, hce, hp, ha]
  refine ⟨hprep, by simp [rowsPerIter], ?_⟩
  rw [runner_stages inp _ hprep
    (openConns_all_ok inp.connectOk inp.concurrency hconn)]
  rw [show (innerPasses inp).1 = .ok rs from by rw [innerPasses_ok inp rs hwu hm]]
  rw [teardownStep, if_pos (by exact ht), if_pos (by exact hs)]
  rw [hs, runOutcome_copy_ok inp _ rs hc]
  rw [show rowsPerIter [QueryArg.rows (List.replicate N row),
    QueryArg.meta ⟨tbl, cols⟩] = N from by simp [rowsPerIter]]
  by_cases hcmp : inp.copyRowcount < N * (mergeResults rs).queries
  · simp [hcmp]
  · rw [if_neg hcmp]
    constructor
    · intro hmk
      exact absurd hmk (mkReport_ne_incomplete inp (mergeResults rs))
    · intro hco
      exact absurd hco hcmp

/-- The worker result of the concrete bulk-copy scenario. -/
def c8wr : WorkerResult :=
  { queries := 3, rows := 15, latency_stats := [0, 3], min_latency := (1 : Nat),
    max_latency := 1 }

/-- A concrete bulk-copy run: `COPY t (a, b)` with a 5-row template,
one worker performing 3 iterations, and a table count one row short of
the expected `5 * 3 = 15`. -/
def c8input : RunnerInput :=
  { timeoutSec := 2
    concurrency := 1
    duration := 3
    warmupTime := 0
    isAsync := false
    hasCopyExecutor := true
    query := "COPY t (a, b)"
    queryArgs := [QueryArg.spec ["1", "x"] 5]
    setup := some "CREATE TABLE t (a int, b text)"
    teardown := some "DROP TABLE t"
    outputFormat := "json"
    connectOk := fun _ => true
    workerFn := fun _ _ _ => .ok c8wr
    copyRowcount := 14 }

/-- Witness for `C8_copy_expansion_postcheck`: the concrete expansion of
the 5-row template, the parsed metadata, and the post-check firing at a
short row count. -/
theorem C8_copy_expansion_postcheck_witness :
    prepArgs c8input.hasCopyExecutor c8input.query c8input.queryArgs =
      .ok [QueryArg.rows (List.replicate 5 ["1", "x"]),
        QueryArg.meta ⟨"t", ["a", "b"]⟩] ∧
    ((runner c8input).1 = .error .incompleteCopy ↔
      c8input.copyRowcount < 5 * (mergeResults [c8wr]).queries) := by
  have h := C8_copy_expansion_postcheck c8input "t" ["a", "b"] ["1", "x"] 5
    [c8wr] (by decide) (by decide) (by decide) (by decide) (by decide)
    (by decide) (by decide) (by decide) (by decide)
  exact ⟨h.1, h.2.2⟩

end PgBench
